import Mathlib

/-!
Shallow embedding of the aviation-text-normalizer matching engine
(`src/aviation_text_normalizer`): tokenizer, entity model, the eight
FSM matchers and the scanning driver, together with theorems settling
the claims about them.

Python strings are modelled as Lean `String`/`List Char`; the character
classes of the regexes (`[A-Za-z]`, `\d`, `\s`, `\w`) are modelled over
their ASCII meaning.  Python `float` confidences are modelled as `ℚ`
(all confidences occurring in the code are exact decimal literals).
Python's bounded `while` loops are modelled by the fuel-indexed
function `collect`; each call site passes the loop's iteration bound as
fuel, so the fuelled function is an exact translation of the loop.
-/

namespace ATN

/-! ## Character classes (ASCII reading of the Python regex classes) -/

/-- ASCII whitespace, the characters matched by `\s` (and stripped by
`str.strip`) on ASCII input. -/
def pySpaceB (c : Char) : Bool :=
  c = ' ' || c = '\t' || c = '\n' || c = '\r' || c = '\x0b' || c = '\x0c'

/-- The class `[A-Z]`. -/
def isUpperA (c : Char) : Bool := 65 ≤ c.toNat && c.toNat ≤ 90

/-- The class `[a-z]`. -/
def isLowerA (c : Char) : Bool := 97 ≤ c.toNat && c.toNat ≤ 122

/-- The class `[A-Za-z]`. -/
def isAlphaA (c : Char) : Bool := isUpperA c || isLowerA c

/-- The class `\d` (ASCII digits). -/
def isDigitA (c : Char) : Bool := 48 ≤ c.toNat && c.toNat ≤ 57

/-- The class `\w` (ASCII word characters). -/
def isWordA (c : Char) : Bool := isAlphaA c || isDigitA c || c = '_'

/-- `str.lower` on one ASCII character. -/
def pyLowerChar (c : Char) : Char :=
  if isUpperA c then Char.ofNat (c.toNat + 32) else c

/-- `str.upper` on one ASCII character. -/
def pyUpperChar (c : Char) : Char :=
  if isLowerA c then Char.ofNat (c.toNat - 32) else c

/-- `str.lower`. -/
def pyLower (s : String) : String := String.mk (s.data.map pyLowerChar)

/-- `str.upper`. -/
def pyUpper (s : String) : String := String.mk (s.data.map pyUpperChar)

/-- `str.isdigit`: nonempty and all digits. -/
def strAllDigits (s : String) : Bool := !s.data.isEmpty && s.data.all isDigitA

/-- Python's substring test `pat in s`, on the underlying character lists. -/
def isSubList (pat : List Char) : List Char → Bool
  | [] => pat.isEmpty
  | c :: cs => pat.isPrefixOf (c :: cs) || isSubList pat cs

/-- Python's `pat in s` for strings. -/
def strContains (s pat : String) : Bool := isSubList pat.data s.data

/-- `str.split()` (no argument): split on whitespace runs, no empty parts.
Fuelled by the input length, which bounds the number of parts. -/
def pySplitChars : Nat → List Char → List (List Char)
  | 0, _ => []
  | _, [] => []
  | fuel + 1, c :: cs =>
    if pySpaceB c then pySplitChars fuel cs
    else
      (c :: cs).takeWhile (fun x => !pySpaceB x) ::
        pySplitChars fuel ((c :: cs).dropWhile (fun x => !pySpaceB x))

/-- `str.split()` on strings. -/
def pySplit (s : String) : List String :=
  (pySplitChars s.data.length s.data).map String.mk

/-! ## `data/dictionary.py`: the shared lookup tables -/

/-- `ICAO_ALPHABET`, in source (insertion) order. -/
def ICAO_ALPHABET : List (String × String) :=
  [("alpha", "A"), ("bravo", "B"), ("charlie", "C"), ("delta", "D"),
   ("echo", "E"), ("foxtrot", "F"), ("golf", "G"), ("hotel", "H"),
   ("india", "I"), ("juliett", "J"), ("kilo", "K"), ("lima", "L"),
   ("mike", "M"), ("november", "N"), ("oscar", "O"), ("papa", "P"),
   ("quebec", "Q"), ("romeo", "R"), ("sierra", "S"), ("tango", "T"),
   ("uniform", "U"), ("victor", "V"), ("whiskey", "W"), ("xray", "X"),
   ("x-ray", "X"), ("yankee", "Y"), ("zulu", "Z")]

/-- Lookup in `ICAO_ALPHABET` (first matching key, as in a Python dict). -/
def icaoLookup (w : String) : Option String :=
  (ICAO_ALPHABET.find? (fun p => p.1 == w)).map (fun p => p.2)

/-- `ICAO_REVERSE = (v: k for k, v in ICAO_ALPHABET.items())`: for a duplicated
value (`"X"`) the LAST insertion wins, hence the search over the reversed
association list. -/
def icaoReverseLookup (v : String) : Option String :=
  (ICAO_ALPHABET.reverse.find? (fun p => p.2 == v)).map (fun p => p.1)

/-- `NUMBER_WORDS`, in source order. -/
def NUMBER_WORDS : List (String × Nat) :=
  [("zero", 0), ("oh", 0), ("one", 1), ("two", 2), ("three", 3), ("tree", 3),
   ("four", 4), ("five", 5), ("fife", 5), ("six", 6), ("seven", 7),
   ("eight", 8), ("ait", 8), ("nine", 9), ("niner", 9)]

/-- Membership / lookup in `NUMBER_WORDS`. -/
def numberWordLookup (w : String) : Option Nat :=
  (NUMBER_WORDS.find? (fun p => p.1 == w)).map (fun p => p.2)

/-- `NUMBER_REVERSE[n]` for `n` in `0..9` (total on that domain; the
out-of-range branch is unreachable at every call site). -/
def NUMBER_REVERSE (n : Nat) : String :=
  match n with
  | 0 => "zero" | 1 => "one" | 2 => "two" | 3 => "three" | 4 => "four"
  | 5 => "five" | 6 => "six" | 7 => "seven" | 8 => "eight" | 9 => "nine"
  | _ => ""

/-- `DECIMAL_WORDS`. -/
def DECIMAL_WORDS : List String := ["decimal", "point", "dot"]

/-- `AIRLINE_ICAO`, in source (insertion) order. -/
def AIRLINE_ICAO : List (String × String) :=
  [("CSN", "china southern"), ("CCA", "air china"), ("CES", "china eastern")]

/-- Lookup in `AIRLINE_ICAO`. -/
def airlineLookup (code : String) : Option String :=
  (AIRLINE_ICAO.find? (fun p => p.1 == code)).map (fun p => p.2)

/-! ## `utils/number_utils.py` -/

/-- `token_to_digit`: single literal digit, or an aviation digit word. -/
def token_to_digit (token : String) : Option String :=
  let t := pyLower token
  if strAllDigits t ∧ t.data.length = 1 then some t
  else
    match numberWordLookup t with
    | some n => some (toString n)
    | none => none

/-- `digits_to_spoken`: digit-by-digit canonical words, space-joined;
non-digits are filtered out first. -/
def digits_to_spoken (digits : String) : String :=
  let only := digits.data.filter isDigitA
  if only.isEmpty then ""
  else String.intercalate " " (only.map (fun ch => NUMBER_REVERSE (ch.toNat - 48)))

/-- `num_str_to_spoken`: integer or decimal number string to spoken form. -/
def num_str_to_spoken (num : String) : String :=
  if num.data.contains '.' then
    let a := num.data.takeWhile (fun c => c ≠ '.')
    let b := num.data.drop (a.length + 1)
    digits_to_spoken (String.mk a) ++ " decimal " ++ digits_to_spoken (String.mk b)
  else digits_to_spoken num

/-! ## `core/tokenizer.py` -/

/-- One character of the `Tokenizer.normalize` separator substitution
`re.sub(r"[,\;:\(\)\[\]\{\}]", " ", s)`. -/
def punctToSpace (c : Char) : Char :=
  if c = ',' || c = ';' || c = ':' || c = '(' || c = ')' ||
     c = '[' || c = ']' || c = '\x7b' || c = '\x7d' then ' ' else c

/-- Unify Unicode dashes to the ASCII hyphen. -/
def dashFix (c : Char) : Char := if c = '–' || c = '—' then '-' else c

/-- `str.strip` on a character list. -/
def stripChars (l : List Char) : List Char :=
  ((l.dropWhile pySpaceB).reverse.dropWhile pySpaceB).reverse

/-- Collapse runs of consecutive spaces to a single space (used to model
`re.sub(r"\s+", " ", s)` after every whitespace character has been mapped
to a plain space). -/
def squeezeSpaces : List Char → List Char
  | [] => []
  | [c] => [c]
  | a :: b :: rest =>
    if a = ' ' ∧ b = ' ' then squeezeSpaces (b :: rest)
    else a :: squeezeSpaces (b :: rest)

/-- `Tokenizer.normalize`: strip, separators to spaces, dash unification,
whitespace collapse, strip. -/
def normalize (text : String) : String :=
  let s1 := stripChars text.data
  let s2 := (s1.map punctToSpace).map dashFix
  let s3 := s2.map (fun c => if pySpaceB c then ' ' else c)
  String.mk (stripChars (squeezeSpaces s3))

/-- A character of a symbol run, the class `[^\sA-Za-z\d]`. -/
def isSymRunChar (c : Char) : Bool := !pySpaceB c && !isAlphaA c && !isDigitA c

/-- `_TOKEN_RE.findall`: left-to-right scan producing maximal letter runs,
digit runs with an optional `.`-fraction, and symbol runs; whitespace is
skipped.  Each step consumes at least one character, so fuel equal to the
input length makes the scan complete. -/
def scanTokens : Nat → List Char → List (List Char)
  | 0, _ => []
  | _, [] => []
  | fuel + 1, c :: cs =>
    if isAlphaA c then
      (c :: cs).takeWhile isAlphaA :: scanTokens fuel ((c :: cs).dropWhile isAlphaA)
    else if isDigitA c then
      let ds := (c :: cs).takeWhile isDigitA
      match (c :: cs).dropWhile isDigitA with
      | '.' :: r2 =>
        let fs := r2.takeWhile isDigitA
        if fs.isEmpty then ds :: scanTokens fuel ('.' :: r2)
        else (ds ++ '.' :: fs) :: scanTokens fuel (r2.dropWhile isDigitA)
      | rest => ds :: scanTokens fuel rest
    else if pySpaceB c then scanTokens fuel cs
    else (c :: cs).takeWhile isSymRunChar :: scanTokens fuel ((c :: cs).dropWhile isSymRunChar)

/-- `re.fullmatch(r"[A-Za-z]+", tok)`. -/
def isAlphaTok (l : List Char) : Bool := !l.isEmpty && l.all isAlphaA

/-- `re.fullmatch(r"[^\w\.]+", tok)`: pure punctuation noise. -/
def isPurePunct (l : List Char) : Bool :=
  !l.isEmpty && l.all (fun c => !isWordA c && c ≠ '.')

/-- `Tokenizer.tokenize`: scan, lowercase pure-letter tokens, drop pure
punctuation tokens. -/
def tokenize (text : String) : List String :=
  let raws := scanTokens text.data.length text.data
  let toks := raws.map (fun tk => if isAlphaTok tk then tk.map pyLowerChar else tk)
  (toks.filter (fun tk => !isPurePunct tk)).map String.mk

/-! ## `core/entity.py` and `core/match.py` -/

/-- `EntityType`. -/
inductive EntityType where
  | CALLSIGN | RUNWAY | TAXIWAY | HEADING
  | FLIGHT_LEVEL | FREQUENCY | QNH | VALUE
deriving DecidableEq, Repr

/-- `RenderMode`. -/
inductive RenderMode where
  | CODE | SPOKEN
deriving DecidableEq, Repr

/-- `AviationEntity`. -/
structure AviationEntity where
  type : EntityType
  raw : String
  code : String
  spoken : String
  confidence : ℚ := 1
  note : Option String := none
deriving DecidableEq, Repr

/-- `AviationEntity.render`: spoken form in SPOKEN mode, code otherwise. -/
def AviationEntity.render (e : AviationEntity) (mode : RenderMode) : String :=
  if mode = RenderMode.SPOKEN then e.spoken else e.code

/-- `MatchResult`. -/
structure MatchResult where
  entity : AviationEntity
  step : Nat
  confidence : ℚ := 1
deriving DecidableEq, Repr

/-! ## Bounded token-collection loops

Every FSM runs loops of the shape
`while j < len(tokens) and len(digs) < cap: d = f(tokens[j]); if d is None: break`.
`collect f tokens cap j` is that loop: the fuel argument is the remaining
capacity `cap - len(digs)` (for the uncapped loops the callers pass
`tokens.length - j`, which bounds the possible number of iterations, so the
fuelled function is exactly the unbounded loop there). -/
def collect (f : String → Option String) (tokens : List String) :
    Nat → Nat → List String × Nat
  | 0, j => ([], j)
  | fuel + 1, j =>
    match tokens.get? j with
    | none => ([], j)
    | some tk =>
      match f tk with
      | none => ([], j)
      | some d =>
        let r := collect f tokens fuel (j + 1)
        (d :: r.1, r.2)

/-- Slice `tokens[i:j]`. -/
def sliceTokens (tokens : List String) (i j : Nat) : List String :=
  (tokens.drop i).take (j - i)

/-- `" ".join(tokens[i:j])`. -/
def joinSlice (tokens : List String) (i j : Nat) : String :=
  String.intercalate " " (sliceTokens tokens i j)

/-! ## `fsms/callsign.py` -/

/-- `_ICAO_MIX_RE = ^([A-Z]{3})\s*([0-9]{1,5})$` applied to the uppercased
token; returns the two capture groups. -/
def parseIcaoMix (t : List Char) : Option (String × String) :=
  match t with
  | a :: b :: c :: rest =>
    if isUpperA a ∧ isUpperA b ∧ isUpperA c then
      let ds := rest.dropWhile pySpaceB
      if !ds.isEmpty ∧ ds.length ≤ 5 ∧ ds.all isDigitA then
        some (String.mk [a, b, c], String.mk ds)
      else none
    else none
  | _ => none

/-- `_ICAO_CODE_RE = ^[A-Z]{3}$` (fullmatch). -/
def isIcaoCode (t : List Char) : Bool := t.length == 3 && t.all isUpperA

/-- `NUMBER_REVERSE.get(ch, ch)` in `callsign.py`: `NUMBER_REVERSE` is keyed
by `int` but looked up with a one-character `str`, so the lookup always
misses and the raw character itself is used. -/
def csSpokenDigits (dstr : String) : String :=
  String.intercalate " " (dstr.data.map String.singleton)

/-- Token collector of callsign case 2: a whole digit-run token is appended
verbatim, otherwise a spoken/literal single digit. -/
def csDigitTok (tok : String) : Option String :=
  if strAllDigits tok then some tok else token_to_digit tok

/-- Callsign case 3: iterate over `AIRLINE_ICAO.items()`; on a full airline
name match followed by at least one digit token, build the result, else try
the next airline. -/
def csCase3 (tokens : List String) (index : Nat) :
    List (String × String) → Option MatchResult
  | [] => none
  | (icao, name) :: rest =>
    let nt := pySplit name
    if sliceTokens tokens index (index + nt.length) = nt then
      let r := collect token_to_digit tokens (tokens.length - (index + nt.length))
        (index + nt.length)
      if !r.1.isEmpty then
        let dstr := String.join r.1
        some { entity :=
                 { type := EntityType.CALLSIGN,
                   raw := joinSlice tokens index r.2,
                   code := icao ++ dstr,
                   spoken := name ++ " " ++ csSpokenDigits dstr,
                   confidence := 0.85 },
               step := r.2 - index, confidence := 0.85 }
      else csCase3 tokens index rest
    else csCase3 tokens index rest

/-- `CallsignFSM.match`. -/
def callsignMatch (tokens : List String) (index : Nat) : Option MatchResult :=
  if index < tokens.length then
    let t0 := tokens.getD index ""
    let t0u := pyUpper t0
    match parseIcaoMix t0u.data with
    | some (icao, digits) =>
      let name := (airlineLookup icao).getD icao
      some { entity :=
               { type := EntityType.CALLSIGN, raw := t0,
                 code := icao ++ digits,
                 spoken := name ++ " " ++ csSpokenDigits digits,
                 confidence := 1 },
             step := 1, confidence := 1 }
    | none =>
      if isIcaoCode t0u.data then
        let r := collect csDigitTok tokens (tokens.length - (index + 1)) (index + 1)
        if !r.1.isEmpty then
          let icao := t0u
          let dstr := String.join r.1
          let name := (airlineLookup icao).getD icao
          some { entity :=
                   { type := EntityType.CALLSIGN,
                     raw := joinSlice tokens index r.2,
                     code := icao ++ dstr,
                     spoken := name ++ " " ++ csSpokenDigits dstr,
                     confidence := 0.90 },
                 step := r.2 - index, confidence := 0.90 }
        else csCase3 tokens index AIRLINE_ICAO
      else csCase3 tokens index AIRLINE_ICAO
  else none

/-! ## `fsms/flight_level.py` -/

/-- `_FL_RE = ^FL\s*([0-9]{2,3})$` (IGNORECASE), applied to the token with
its plain spaces removed; returns the digit group. -/
def parseFLCompact (t : List Char) : Option String :=
  match t with
  | f :: l :: rest =>
    if pyLowerChar f = 'f' ∧ pyLowerChar l = 'l' then
      let ds := rest.dropWhile pySpaceB
      if 2 ≤ ds.length ∧ ds.length ≤ 3 ∧ ds.all isDigitA then some (String.mk ds)
      else none
    else none
  | _ => none

/-- Collector of the spoken flight-level form: aviation number words or
single literal digits, appended as (lowercased) tokens. -/
def flNumTok (tok : String) : Option String :=
  let w := pyLower tok
  if (numberWordLookup w).isSome ∨ (strAllDigits w ∧ w.data.length = 1) then some w
  else none

/-- `_norm_word`: canonicalize one spoken-digit token for SPOKEN output. -/
def flNormWord (x : String) : String :=
  if strAllDigits x then digits_to_spoken x
  else if x = "tree" then "three"
  else if x = "fife" then "five"
  else if x = "niner" then "nine"
  else if x = "ait" then "eight"
  else if x = "oh" then "zero"
  else x

/-- Convert the collected spoken tokens to digit characters
(`str(NUMBER_WORDS[w])`; the default is unreachable because the collector
only accepts number words and single digits). -/
def flTokDigits (w : String) : String :=
  if strAllDigits w then w else toString ((numberWordLookup w).getD 0)

/-- `FlightLevelFSM.match`. -/
def flightLevelMatch (tokens : List String) (index : Nat) : Option MatchResult :=
  if index < tokens.length then
    let tok := tokens.getD index ""
    match parseFLCompact (tok.data.filter (fun c => c ≠ ' ')) with
    | some fl =>
      some { entity :=
               { type := EntityType.FLIGHT_LEVEL, raw := tok,
                 code := "FL" ++ fl,
                 spoken := "flight level " ++ digits_to_spoken fl,
                 confidence := 1 },
             step := 1, confidence := 1 }
    | none =>
      if pyLower tok = "fl" ∧ index + 1 < tokens.length ∧
          strAllDigits (tokens.getD (index + 1) "") then
        let fl := tokens.getD (index + 1) ""
        some { entity :=
                 { type := EntityType.FLIGHT_LEVEL,
                   raw := joinSlice tokens index (index + 2),
                   code := "FL" ++ fl,
                   spoken := "flight level " ++ digits_to_spoken fl,
                   confidence := 0.9 },
               step := 2, confidence := 0.9 }
      else if sliceTokens tokens index (index + 2) = ["flight", "level"] then
        let r := collect flNumTok tokens (tokens.length - (index + 2)) (index + 2)
        if 2 ≤ r.1.length then
          let fl := String.join (r.1.map flTokDigits)
          some { entity :=
                   { type := EntityType.FLIGHT_LEVEL,
                     raw := joinSlice tokens index r.2,
                     code := "FL" ++ fl,
                     spoken := "flight level " ++
                       String.intercalate " " (r.1.map flNormWord),
                     confidence := 0.90 },
                 step := r.2 - index, confidence := 0.90 }
        else none
      else none
  else none

/-! ## `fsms/runway.py` -/

/-- `_RW_PREFIX`. -/
def rwKeywords : List String := ["runway", "rwy"]

/-- `_RW_CODE_RE = ^\d{2}([LRC])?$` (fullmatch). -/
def isRwCode (t : List Char) : Bool :=
  match t with
  | [a, b] => isDigitA a && isDigitA b
  | [a, b, s] => isDigitA a && isDigitA b && (s = 'L' || s = 'R' || s = 'C')
  | _ => false

/-- `_RW_TIGHT_RE = ^\d{2}[LRC]$` (fullmatch). -/
def isRwTight (t : List Char) : Bool :=
  match t with
  | [a, b, s] => isDigitA a && isDigitA b && (s = 'L' || s = 'R' || s = 'C')
  | _ => false

/-- `_DIR_WORD_TO_CODE`. -/
def dirWordLookup (w : String) : Option String :=
  if w = "left" then some "L"
  else if w = "right" then some "R"
  else if w = "center" then some "C"
  else none

/-- `_DIR_CODE_TO_WORD[side]` (total on `L/R/C`, the only values looked up). -/
def dirCodeToWord (s : String) : String :=
  if s = "L" then "left" else if s = "R" then "right"
  else if s = "C" then "center" else ""

/-- `RunwayFSM._match_after_prefix`: the `runway/rwy`-anchored forms. -/
def rwAfterKeyword (tokens : List String) (index : Nat) : Option MatchResult :=
  if index + 1 < tokens.length then
    let t1 := pyUpper (tokens.getD (index + 1) "")
    if isRwCode t1.data then
      let num := String.mk (t1.data.take 2)
      let side := if t1.data.length = 3 then String.mk (t1.data.drop 2) else ""
      some { entity :=
               { type := EntityType.RUNWAY,
                 raw := joinSlice tokens index (index + 2),
                 code := "RWY " ++ num ++ side,
                 spoken := "runway " ++ digits_to_spoken num ++
                   (if side ≠ "" then " " ++ dirCodeToWord side else ""),
                 confidence := 0.95 },
             step := 2, confidence := 0.95 }
    else
      match token_to_digit (tokens.getD (index + 1) ""),
            (if index + 2 < tokens.length
             then token_to_digit (tokens.getD (index + 2) "") else none) with
      | some d1, some d2 =>
        let num := d1 ++ d2
        let sideLk := dirWordLookup (pyLower (tokens.getD (index + 3) ""))
        let hasSide := index + 3 < tokens.length ∧ sideLk.isSome
        let side := if hasSide then sideLk.getD "" else ""
        let j := if hasSide then index + 4 else index + 3
        some { entity :=
                 { type := EntityType.RUNWAY,
                   raw := joinSlice tokens index j,
                   code := "RWY " ++ num ++ side,
                   spoken := "runway " ++ digits_to_spoken num ++
                     (if side ≠ "" then " " ++ dirCodeToWord side else ""),
                   confidence := 0.90 },
               step := j - index, confidence := 0.90 }
      | _, _ => none
  else none

/-- `RunwayFSM.match`. -/
def runwayMatch (tokens : List String) (index : Nat) : Option MatchResult :=
  if index < tokens.length then
    if rwKeywords.contains (pyLower (tokens.getD index "")) then
      rwAfterKeyword tokens index
    else
      let t := pyUpper (tokens.getD index "")
      if isRwTight t.data then
        let num := String.mk (t.data.take 2)
        let side := String.mk (t.data.drop 2)
        some { entity :=
                 { type := EntityType.RUNWAY, raw := tokens.getD index "",
                   code := "RWY " ++ num ++ side,
                   spoken := "runway " ++ digits_to_spoken num ++ " " ++
                     dirCodeToWord side,
                   confidence := 0.75 },
               step := 1, confidence := 0.75 }
      else none
  else none

/-! ## `fsms/taxiway.py` -/

/-- `_TW_PREFIX`. -/
def twKeywords : List String := ["taxiway", "twy", "tw"]

/-- `_TW_CODE_RE = ^[A-Z](\d{1,2})?$` (fullmatch). -/
def isTwCode (t : List Char) : Bool :=
  match t with
  | [a] => isUpperA a
  | [a, b] => isUpperA a && isDigitA b
  | [a, b, c] => isUpperA a && isDigitA b && isDigitA c
  | _ => false

/-- `TaxiwayFSM.match`. -/
def taxiwayMatch (tokens : List String) (index : Nat) : Option MatchResult :=
  if index < tokens.length then
    if twKeywords.contains (pyLower (tokens.getD index "")) ∧
        index + 1 < tokens.length then
      let start := index + 1
      let t := pyUpper (tokens.getD start "")
      if isTwCode t.data then
        let letter := String.mk (t.data.take 1)
        let digits := String.mk (t.data.drop 1)
        some { entity :=
                 { type := EntityType.TAXIWAY,
                   raw := joinSlice tokens index (start + 1),
                   code := "TWY " ++ letter ++ digits,
                   spoken := "taxiway " ++ (icaoReverseLookup letter).getD letter ++
                     (if digits ≠ "" then " " ++ digits_to_spoken digits else ""),
                   confidence := 0.90 },
               step := start - index + 1, confidence := 0.90 }
      else
        let w0 := pyLower (tokens.getD start "")
        match icaoLookup w0 with
        | some letter =>
          let r := collect token_to_digit tokens 2 (start + 1)
          let dstr := String.join r.1
          some { entity :=
                   { type := EntityType.TAXIWAY,
                     raw := joinSlice tokens index r.2,
                     code := "TWY " ++ letter ++ dstr,
                     spoken := "taxiway " ++ w0 ++
                       (if !r.1.isEmpty then " " ++ digits_to_spoken dstr else ""),
                     confidence := 0.90 },
                 step := r.2 - index, confidence := 0.90 }
        | none => none
    else none
  else none

/-! ## `fsms/heading.py` -/

/-- `_HDR_PREFIX`. -/
def hdgKeywords : List String := ["heading", "hdg"]

/-- `_HDG_RE = ^\d{1,3}$` (fullmatch). -/
def isHdgNum (t : List Char) : Bool :=
  !t.isEmpty && decide (t.length ≤ 3) && t.all isDigitA

/-- `str.zfill(3)` for the unsigned strings used here. -/
def zfill3 (s : String) : String :=
  String.mk (List.replicate (3 - s.data.length) '0') ++ s

/-- `HeadingFSM.match`. -/
def headingMatch (tokens : List String) (index : Nat) : Option MatchResult :=
  if index < tokens.length then
    if hdgKeywords.contains (pyLower (tokens.getD index "")) then
      if index + 1 < tokens.length ∧ isHdgNum (tokens.getD (index + 1) "").data then
        let deg := zfill3 (tokens.getD (index + 1) "")
        some { entity :=
                 { type := EntityType.HEADING,
                   raw := joinSlice tokens index (index + 2),
                   code := "HDG " ++ deg,
                   spoken := "heading " ++ digits_to_spoken deg,
                   confidence := 0.95 },
               step := 2, confidence := 0.95 }
      else
        let r := collect token_to_digit tokens 3 (index + 1)
        if 2 ≤ r.1.length then
          let deg := zfill3 (String.join r.1)
          some { entity :=
                   { type := EntityType.HEADING,
                     raw := joinSlice tokens index r.2,
                     code := "HDG " ++ deg,
                     spoken := "heading " ++ digits_to_spoken deg,
                     confidence := 0.90 },
                 step := r.2 - index, confidence := 0.90 }
        else none
    else none
  else none

/-! ## `fsms/frequency.py` -/

/-- `_PREFIX` of the frequency FSM. -/
def freqKeywords : List String := ["freq", "frequency", "contact", "on"]

/-- `_FREQ_RE = ^\d{3}\.\d{1,3}$` (fullmatch). -/
def isFreqTok (t : List Char) : Bool :=
  match t with
  | a :: b :: c :: '.' :: rest =>
    isDigitA a && isDigitA b && isDigitA c &&
      !rest.isEmpty && decide (rest.length ≤ 3) && rest.all isDigitA
  | _ => false

/-- `FrequencyFSM.match`. -/
def frequencyMatch (tokens : List String) (index : Nat) : Option MatchResult :=
  if index < tokens.length then
    let start :=
      if freqKeywords.contains (pyLower (tokens.getD index "")) ∧
          index + 1 < tokens.length then index + 1 else index
    let tok := tokens.getD start ""
    if isFreqTok tok.data then
      some { entity :=
               { type := EntityType.FREQUENCY,
                 raw := joinSlice tokens index (start + 1),
                 code := tok,
                 spoken := num_str_to_spoken tok,
                 confidence := 0.95 },
             step := start - index + 1, confidence := 0.95 }
    else
      let mj := collect token_to_digit tokens 4 start
      if 2 ≤ mj.1.length ∧ mj.2 < tokens.length ∧
          DECIMAL_WORDS.contains (pyLower (tokens.getD mj.2 "")) then
        let mn := collect token_to_digit tokens 3 (mj.2 + 1)
        if !mn.1.isEmpty then
          let code := String.join mj.1 ++ "." ++ String.join mn.1
          some { entity :=
                   { type := EntityType.FREQUENCY,
                     raw := joinSlice tokens index mn.2,
                     code := code,
                     spoken := num_str_to_spoken code,
                     confidence := 0.90 },
                 step := mn.2 - index, confidence := 0.90 }
        else none
      else none
  else none

/-! ## `fsms/qnh.py` -/

/-- `_QNH_RE = ^\d{4}$` (fullmatch). -/
def isQnh4 (t : List Char) : Bool := t.length == 4 && t.all isDigitA

/-- `QNHFSM.match`. -/
def qnhMatch (tokens : List String) (index : Nat) : Option MatchResult :=
  if index < tokens.length ∧ pyLower (tokens.getD index "") = "qnh" then
    if index + 1 < tokens.length ∧ isQnh4 (tokens.getD (index + 1) "").data then
      let v := tokens.getD (index + 1) ""
      some { entity :=
               { type := EntityType.QNH,
                 raw := joinSlice tokens index (index + 2),
                 code := "QNH " ++ v,
                 spoken := "qnh " ++ digits_to_spoken v,
                 confidence := 0.95 },
             step := 2, confidence := 0.95 }
    else
      let r := collect token_to_digit tokens 4 (index + 1)
      if r.1.length = 4 then
        let v := String.join r.1
        some { entity :=
                 { type := EntityType.QNH,
                   raw := joinSlice tokens index r.2,
                   code := "QNH " ++ v,
                   spoken := "qnh " ++ digits_to_spoken v,
                   confidence := 0.90 },
               step := r.2 - index, confidence := 0.90 }
      else none
  else none

/-! ## `fsms/value.py` -/

/-- `_NUM_RE = ^\d+(\.\d+)?$` (fullmatch). -/
def isNumTok (t : List Char) : Bool :=
  let ds := t.takeWhile isDigitA
  let rest := t.dropWhile isDigitA
  !ds.isEmpty &&
    (rest.isEmpty ||
      (match rest with
       | '.' :: fs => !fs.isEmpty && fs.all isDigitA
       | _ => false))

/-- `_UNIT`: unit word to (code form, spoken form). -/
def unitLookup (w : String) : Option (String × String) :=
  if w = "ft" ∨ w = "feet" ∨ w = "foot" then some ("ft", "feet")
  else if w = "kt" ∨ w = "kts" ∨ w = "knot" ∨ w = "knots" then some ("kt", "knots")
  else if w = "deg" ∨ w = "degree" ∨ w = "degrees" then some ("deg", "degrees")
  else none

/-- `ValueFSM.match`. -/
def valueMatch (tokens : List String) (index : Nat) : Option MatchResult :=
  if index < tokens.length then
    if index + 1 < tokens.length ∧ isNumTok (tokens.getD index "").data ∧
        (unitLookup (pyLower (tokens.getD (index + 1) ""))).isSome then
      let num := tokens.getD index ""
      let u := (unitLookup (pyLower (tokens.getD (index + 1) ""))).getD ("", "")
      some { entity :=
               { type := EntityType.VALUE,
                 raw := joinSlice tokens index (index + 2),
                 code := num ++ " " ++ u.1,
                 spoken := num_str_to_spoken num ++ " " ++ u.2,
                 confidence := 0.90 },
             step := 2, confidence := 0.90 }
    else
      let mj := collect token_to_digit tokens 6 index
      if mj.1.isEmpty then none
      else
        let hasDec := mj.2 < tokens.length ∧
          DECIMAL_WORDS.contains (pyLower (tokens.getD mj.2 ""))
        let fr := if hasDec then collect token_to_digit tokens 6 (mj.2 + 1)
                  else ([], mj.2)
        let j := fr.2
        if j < tokens.length ∧ (unitLookup (pyLower (tokens.getD j ""))).isSome then
          let u := (unitLookup (pyLower (tokens.getD j ""))).getD ("", "")
          let num := String.join mj.1 ++
            (if !fr.1.isEmpty then "." ++ String.join fr.1 else "")
          some { entity :=
                   { type := EntityType.VALUE,
                     raw := joinSlice tokens index (j + 1),
                     code := num ++ " " ++ u.1,
                     spoken := num_str_to_spoken num ++ " " ++ u.2,
                     confidence := 0.85 },
                 step := j + 1 - index, confidence := 0.85 }
        else none
  else none

/-! ## `core/parser.py`: the scanning driver

A matcher invocation can, in Python, raise an arbitrary exception; the
driver catches it (`except Exception`) and treats it as "no match".  A
matcher is therefore embedded as a function into `Except Unit (Option
MatchResult)`, where `Except.error` models a raised exception.  The eight
concrete matchers above are total and are lifted with `pureFSM`. -/

/-- The duck-typed `FSM.match` interface, with exceptions made explicit. -/
def FSMFun : Type := List String → Nat → Except Unit (Option MatchResult)

/-- Lift an exception-free matcher. -/
def pureFSM (m : List String → Nat → Option MatchResult) : FSMFun :=
  fun tokens index => Except.ok (m tokens index)

/-- `DEFAULT_FSMS`, in the order of `fsms/__init__.py`. -/
def defaultFSMs : List FSMFun :=
  [pureFSM callsignMatch, pureFSM flightLevelMatch, pureFSM runwayMatch,
   pureFSM taxiwayMatch, pureFSM headingMatch, pureFSM frequencyMatch,
   pureFSM qnhMatch, pureFSM valueMatch]

/-- One guarded matcher invocation of `_best_match`: `try: res = fsm.match(...)
except Exception: res = None` (the log entry has no effect on the result). -/
def tryFsm (f : FSMFun) (tokens : List String) (index : Nat) : Option MatchResult :=
  match f tokens index with
  | Except.error _ => none
  | Except.ok r => r

/-- The comparison key of a match. -/
def mkey (r : MatchResult) : Nat × ℚ := (r.step, r.confidence)

/-- Python's tuple comparison `(a1, a2) < (b1, b2)`: lexicographic, strict. -/
def keyLtB (a b : Nat × ℚ) : Bool :=
  decide (a.1 < b.1) || (decide (a.1 = b.1) && decide (a.2 < b.2))

/-- The accumulator loop of `_best_match` restricted to the successful
match results, in matcher order: `best = res` exactly when `best is None`
or `(res.step, res.confidence) > (best.step, best.confidence)`. -/
def pickBest : Option MatchResult → List MatchResult → Option MatchResult
  | best, [] => best
  | none, r :: rs => pickBest (some r) rs
  | some b, r :: rs =>
    pickBest (if keyLtB (mkey b) (mkey r) then some r else some b) rs

/-- The full `_best_match` loop over the matcher list, skipping matchers
that return no match (or raise). -/
def bestMatchFrom (tokens : List String) (index : Nat) :
    Option MatchResult → List FSMFun → Option MatchResult
  | best, [] => best
  | best, f :: fs =>
    match tryFsm f tokens index with
    | none => bestMatchFrom tokens index best fs
    | some r =>
      match best with
      | none => bestMatchFrom tokens index (some r) fs
      | some b =>
        bestMatchFrom tokens index
          (if keyLtB (mkey b) (mkey r) then some r else some b) fs

/-- `Parser._best_match`. -/
def bestMatch (fsms : List FSMFun) (tokens : List String) (index : Nat) :
    Option MatchResult :=
  bestMatchFrom tokens index none fsms

/-- The successful matches at a position, in matcher-list order. -/
def matchResults (fsms : List FSMFun) (tokens : List String) (index : Nat) :
    List MatchResult :=
  fsms.filterMap (fun f => tryFsm f tokens index)

/-- The cursor position after one iteration of the scan loop. -/
def nextCursor (fsms : List FSMFun) (tokens : List String) (i : Nat) : Nat :=
  match bestMatch fsms tokens i with
  | none => i + 1
  | some b => i + max 1 b.step

/-- The `while i < len(tokens)` loop of `Parser.parse`.  The only partial
primitive in the loop body is the list subscript `tokens[i]`, modelled by
`List.get?` with `Except.error` for `IndexError`; every other step is total
(matcher faults are already caught by `tryFsm` inside `bestMatch`).  Each
iteration advances the cursor by at least one, so fuel `tokens.length`
suffices from cursor 0 (proved below). -/
def scanLoopE (fsms : List FSMFun) (tokens : List String) (mode : RenderMode) :
    Nat → Nat → Except Unit (List String)
  | 0, _ => Except.ok []
  | fuel + 1, i =>
    if i < tokens.length then
      match tokens.get? i with
      | none => Except.error ()
      | some tk =>
        match bestMatch fsms tokens i with
        | none =>
          (scanLoopE fsms tokens mode fuel (i + 1)).map (fun out => tk :: out)
        | some best =>
          (scanLoopE fsms tokens mode fuel (i + max 1 best.step)).map
            (fun out => best.entity.render mode :: out)
    else Except.ok []

/-- `Parser.parse`, with the possibility of an uncaught driver-level
exception kept explicit. -/
def parseE (fsms : List FSMFun) (text : String) (mode : RenderMode) :
    Except Unit String :=
  let tokens := tokenize (normalize text)
  (scanLoopE fsms tokens mode tokens.length 0).map (String.intercalate " ")

/-- `Parser.parse`: the string actually returned. -/
def parse (fsms : List FSMFun) (text : String) (mode : RenderMode) : String :=
  match parseE fsms text mode with
  | Except.ok s => s
  | Except.error _ => ""

/-- The eight concrete matchers, in driver order (used to quantify over
"any of the eight matchers"). -/
def allMatchers : List (List String → Nat → Option MatchResult) :=
  [callsignMatch, flightLevelMatch, runwayMatch, taxiwayMatch,
   headingMatch, frequencyMatch, qnhMatch, valueMatch]

/-- Replace a possibly-raising matcher by one that returns "no match" at
exactly the positions where it would raise, and is unchanged elsewhere. -/
def sanitizeFSM (f : FSMFun) : FSMFun := fun tokens index =>
  match f tokens index with
  | Except.error _ => Except.ok none
  | Except.ok r => Except.ok r

/-- The match result of `runwayMatch ["runway", "34"] 0` (used by witnesses). -/
def rwMatch34 : MatchResult :=
  { entity :=
      { type := EntityType.RUNWAY, raw := "runway 34", code := "RWY 34",
        spoken := "runway three four", confidence := 0.95 },
    step := 2, confidence := 0.95 }

/-! ## Helper lemmas about the collection loops -/

theorem collect_snd_ge (f : String → Option String) (tokens : List String) :
    ∀ fuel j, j ≤ (collect f tokens fuel j).2 := by
  intro fuel
  induction fuel with
  | zero => intro j; simp [collect]
  | succ n ih =>
    intro j
    simp only [collect]
    cases h : tokens.get? j with
    | none => simp
    | some tk =>
      cases hf : f tk with
      | none => simp [hf]
      | some d => simpa [hf] using Nat.le_trans (Nat.le_succ j) (ih (j + 1))

theorem collect_snd_le_len (f : String → Option String) (tokens : List String) :
    ∀ fuel j, j ≤ tokens.length → (collect f tokens fuel j).2 ≤ tokens.length := by
  intro fuel
  induction fuel with
  | zero => intro j hj; simpa [collect] using hj
  | succ n ih =>
    intro j hj
    simp only [collect]
    cases h : tokens.get? j with
    | none => simpa using hj
    | some tk =>
      cases hf : f tk with
      | none => simpa [hf] using hj
      | some d =>
        have hjlt : j < tokens.length := by
          by_contra hge
          rw [List.get?_eq_none.mpr (Nat.le_of_not_lt hge)] at h
          exact Option.noConfusion h
        simpa [hf] using ih (j + 1) hjlt

theorem collect_snd_eq (f : String → Option String) (tokens : List String) :
    ∀ fuel j, (collect f tokens fuel j).2 = j + (collect f tokens fuel j).1.length := by
  intro fuel
  induction fuel with
  | zero => intro j; simp [collect]
  | succ n ih =>
    intro j
    simp only [collect]
    cases h : tokens.get? j with
    | none => simp
    | some tk =>
      cases hf : f tk with
      | none => simp [hf]
      | some d => simp [hf, ih (j + 1)]; omega

theorem sliceTokens_length_le (tokens : List String) (i k : Nat)
    (h0 : i ≤ tokens.length)
    (h : (sliceTokens tokens i (i + k)).length = k) : i + k ≤ tokens.length := by
  rcases Nat.eq_zero_or_pos k with hk | hk
  · omega
  · simp only [sliceTokens, List.length_take, List.length_drop] at h
    omega

/-! ## Step bounds of the individual matchers (claim C5) -/

theorem stepBounds_qnh (tokens : List String) (i : Nat) (r : MatchResult)
    (h : qnhMatch tokens i = some r) :
    1 ≤ r.step ∧ i + r.step ≤ tokens.length := by
  unfold qnhMatch at h
  split at h
  next h1 =>
    split at h
    next h2 =>
      obtain rfl := Option.some.inj h
      simpa using h2.1
    next h2 =>
      try simp only [] at h
      split at h
      next h3 =>
        obtain rfl := Option.some.inj h
        have hge := collect_snd_ge token_to_digit tokens 4 (i + 1)
        have hle := collect_snd_le_len token_to_digit tokens 4 (i + 1) h1.1
        simp only []
        omega
      next h3 => exact absurd h (by simp)
  next h1 => exact absurd h (by simp)

theorem stepBounds_heading (tokens : List String) (i : Nat) (r : MatchResult)
    (h : headingMatch tokens i = some r) :
    1 ≤ r.step ∧ i + r.step ≤ tokens.length := by
  unfold headingMatch at h
  split at h
  next h0 =>
    split at h
    next h1 =>
      split at h
      next h2 =>
        obtain rfl := Option.some.inj h
        simpa using h2.1
      next h2 =>
        try simp only [] at h
        split at h
        next h3 =>
          obtain rfl := Option.some.inj h
          have hge := collect_snd_ge token_to_digit tokens 3 (i + 1)
          have hle := collect_snd_le_len token_to_digit tokens 3 (i + 1) h0
          simp only []
          omega
        next h3 => exact absurd h (by simp)
    next h1 => exact absurd h (by simp)
  next h0 => exact absurd h (by simp)

theorem stepBounds_runway (tokens : List String) (i : Nat) (r : MatchResult)
    (h : runwayMatch tokens i = some r) :
    1 ≤ r.step ∧ i + r.step ≤ tokens.length := by
  unfold runwayMatch at h
  split at h
  next h0 =>
    split at h
    next h1 =>
      unfold rwAfterKeyword at h
      split at h
      next h2 =>
        try simp only [] at h
        split at h
        next h3 =>
          obtain rfl := Option.some.inj h
          simpa using h2
        next h3 =>
          split at h
          next =>
            rename_i d1 d2 heq1 heq2
            obtain rfl := Option.some.inj h
            have hlt2 : i + 2 < tokens.length := by
              by_contra hge
              rw [if_neg hge] at heq2
              exact Option.noConfusion heq2
            simp only []
            by_cases h5 : i + 3 < tokens.length ∧
              (dirWordLookup (pyLower (tokens.getD (i + 3) ""))).isSome = true
            · rw [if_pos h5]; omega
            · rw [if_neg h5]; omega
          next => exact absurd h (by simp)
      next h2 => exact absurd h (by simp)
    next h1 =>
      try simp only [] at h
      split at h
      next h2 =>
        obtain rfl := Option.some.inj h
        simpa using h0
      next h2 => exact absurd h (by simp)
  next h0 => exact absurd h (by simp)

theorem stepBounds_taxiway (tokens : List String) (i : Nat) (r : MatchResult)
    (h : taxiwayMatch tokens i = some r) :
    1 ≤ r.step ∧ i + r.step ≤ tokens.length := by
  unfold taxiwayMatch at h
  split at h
  next h0 =>
    split at h
    next h1 =>
      try simp only [] at h
      split at h
      next h2 =>
        obtain rfl := Option.some.inj h
        simp only []
        omega
      next h2 =>
        split at h
        next letter hlk =>
          obtain rfl := Option.some.inj h
          have hge := collect_snd_ge token_to_digit tokens 2 (i + 1 + 1)
          have hle := collect_snd_le_len token_to_digit tokens 2 (i + 1 + 1) h1.2
          simp only []
          omega
        next hlk => exact absurd h (by simp)
    next h1 => exact absurd h (by simp)
  next h0 => exact absurd h (by simp)

theorem stepBounds_flightLevel (tokens : List String) (i : Nat) (r : MatchResult)
    (h : flightLevelMatch tokens i = some r) :
    1 ≤ r.step ∧ i + r.step ≤ tokens.length := by
  unfold flightLevelMatch at h
  split at h
  next h0 =>
    try simp only [] at h
    split at h
    next fl hfl =>
      obtain rfl := Option.some.inj h
      simpa using h0
    next hfl =>
      split at h
      next h1 =>
        obtain rfl := Option.some.inj h
        simpa using h1.2.1
      next h1 =>
        split at h
        next h2 =>
          try simp only [] at h
          split at h
          next h3 =>
            obtain rfl := Option.some.inj h
            have hsl : i + 2 ≤ tokens.length := by
              refine sliceTokens_length_le tokens i 2 (Nat.le_of_lt h0) ?_
              rw [h2]; rfl
            have hge := collect_snd_ge flNumTok tokens (tokens.length - (i + 2)) (i + 2)
            have hle := collect_snd_le_len flNumTok tokens
              (tokens.length - (i + 2)) (i + 2) hsl
            simp only []
            omega
          next h3 => exact absurd h (by simp)
        next h2 => exact absurd h (by simp)
  next h0 => exact absurd h (by simp)

theorem stepBounds_csCase3 (tokens : List String) (i : Nat) (r : MatchResult)
    (hi : i < tokens.length) :
    ∀ airlines, csCase3 tokens i airlines = some r →
      1 ≤ r.step ∧ i + r.step ≤ tokens.length := by
  intro airlines
  induction airlines with
  | nil => intro h; exact absurd h (by simp [csCase3])
  | cons p rest ih =>
    intro h
    obtain ⟨icao, name⟩ := p
    unfold csCase3 at h
    try simp only [] at h
    split at h
    next hsl =>
      split at h
      next hne =>
        obtain rfl := Option.some.inj h
        have hstart : i + (pySplit name).length ≤ tokens.length := by
          refine sliceTokens_length_le tokens i (pySplit name).length
            (Nat.le_of_lt hi) ?_
          rw [hsl]
        have hge := collect_snd_ge token_to_digit tokens
          (tokens.length - (i + (pySplit name).length))
          (i + (pySplit name).length)
        have hle := collect_snd_le_len token_to_digit tokens
          (tokens.length - (i + (pySplit name).length))
          (i + (pySplit name).length) hstart
        have hlen := collect_snd_eq token_to_digit tokens
          (tokens.length - (i + (pySplit name).length))
          (i + (pySplit name).length)
        have hpos : 0 < (collect token_to_digit tokens
            (tokens.length - (i + (pySplit name).length))
            (i + (pySplit name).length)).1.length := by
          rcases Nat.eq_zero_or_pos (collect token_to_digit tokens
            (tokens.length - (i + (pySplit name).length))
            (i + (pySplit name).length)).1.length with hz | hp
          · rw [List.length_eq_zero] at hz
            simp [hz] at hne
          · exact hp
        simp only []
        omega
      next hne => exact ih h
    next hsl => exact ih h

theorem stepBounds_callsign (tokens : List String) (i : Nat) (r : MatchResult)
    (h : callsignMatch tokens i = some r) :
    1 ≤ r.step ∧ i + r.step ≤ tokens.length := by
  unfold callsignMatch at h
  split at h
  next h0 =>
    try simp only [] at h
    split at h
    next icao digits hpr =>
      obtain rfl := Option.some.inj h
      simpa using h0
    next hpr =>
      split at h
      next h1 =>
        split at h
        next h2 =>
          obtain rfl := Option.some.inj h
          have hge := collect_snd_ge csDigitTok tokens (tokens.length - (i + 1)) (i + 1)
          have hle := collect_snd_le_len csDigitTok tokens
            (tokens.length - (i + 1)) (i + 1) h0
          simp only []
          omega
        next h2 => exact stepBounds_csCase3 tokens i r h0 AIRLINE_ICAO h
      next h1 => exact stepBounds_csCase3 tokens i r h0 AIRLINE_ICAO h
  next h0 => exact absurd h (by simp)

theorem stepBounds_frequency (tokens : List String) (i : Nat) (r : MatchResult)
    (h : frequencyMatch tokens i = some r) :
    1 ≤ r.step ∧ i + r.step ≤ tokens.length := by
  unfold frequencyMatch at h
  split at h
  next h0 =>
    by_cases hkw : freqKeywords.contains (pyLower (tokens.getD i "")) = true ∧
      i + 1 < tokens.length
    · rw [if_pos hkw] at h
      try simp only [] at h
      split at h
      next h1 =>
        obtain rfl := Option.some.inj h
        simpa using hkw.2
      next h1 =>
        split at h
        next h2 =>
          try simp only [] at h
          split at h
          next h3 =>
            obtain rfl := Option.some.inj h
            have hge := collect_snd_ge token_to_digit tokens 4 (i + 1)
            have hge2 := collect_snd_ge token_to_digit tokens 3
              ((collect token_to_digit tokens 4 (i + 1)).2 + 1)
            have hle2 := collect_snd_le_len token_to_digit tokens 3
              ((collect token_to_digit tokens 4 (i + 1)).2 + 1) h2.2.1
            simp only []
            omega
          next h3 => exact absurd h (by simp)
        next h2 => exact absurd h (by simp)
    · rw [if_neg hkw] at h
      try simp only [] at h
      split at h
      next h1 =>
        obtain rfl := Option.some.inj h
        simpa using h0
      next h1 =>
        split at h
        next h2 =>
          try simp only [] at h
          split at h
          next h3 =>
            obtain rfl := Option.some.inj h
            have hge := collect_snd_ge token_to_digit tokens 4 i
            have hge2 := collect_snd_ge token_to_digit tokens 3
              ((collect token_to_digit tokens 4 i).2 + 1)
            have hle2 := collect_snd_le_len token_to_digit tokens 3
              ((collect token_to_digit tokens 4 i).2 + 1) h2.2.1
            simp only []
            omega
          next h3 => exact absurd h (by simp)
        next h2 => exact absurd h (by simp)
  next h0 => exact absurd h (by simp)

theorem stepBounds_value (tokens : List String) (i : Nat) (r : MatchResult)
    (h : valueMatch tokens i = some r) :
    1 ≤ r.step ∧ i + r.step ≤ tokens.length := by
  unfold valueMatch at h
  split at h
  next h0 =>
    split at h
    next h1 =>
      obtain rfl := Option.some.inj h
      simpa using h1.1
    next h1 =>
      try simp only [] at h
      split at h
      next h2 => exact absurd h (by simp)
      next h2 =>
        have hge := collect_snd_ge token_to_digit tokens 6 i
        have hge2 := collect_snd_ge token_to_digit tokens 6
          ((collect token_to_digit tokens 6 i).2 + 1)
        split at h
        next h3 =>
          split at h
          next h4 =>
            obtain rfl := Option.some.inj h
            simp only []
            omega
          next h4 => exact absurd h (by simp)
        next h3 =>
          split at h
          next h4 =>
            obtain rfl := Option.some.inj h
            simp only []
            omega
          next h4 => exact absurd h (by simp)
  next h0 => exact absurd h (by simp)

/-- Claim C5: for every token list and every index in bounds, every
successful MatchResult returned by any of the eight matchers satisfies
`1 ≤ step ≤ tokens.length - index`. -/
theorem claim_C5 (m : List String → Nat → Option MatchResult)
    (hm : m ∈ allMatchers) (tokens : List String) (index : Nat) (r : MatchResult)
    (hidx : index < tokens.length) (h : m tokens index = some r) :
    1 ≤ r.step ∧ r.step ≤ tokens.length - index := by
  simp only [allMatchers, List.mem_cons, List.not_mem_nil, or_false] at hm
  rcases hm with rfl | rfl | rfl | rfl | rfl | rfl | rfl | rfl
  · have := stepBounds_callsign tokens index r h; omega
  · have := stepBounds_flightLevel tokens index r h; omega
  · have := stepBounds_runway tokens index r h; omega
  · have := stepBounds_taxiway tokens index r h; omega
  · have := stepBounds_heading tokens index r h; omega
  · have := stepBounds_frequency tokens index r h; omega
  · have := stepBounds_qnh tokens index r h; omega
  · have := stepBounds_value tokens index r h; omega

/-- Witness for C5 at a concrete matcher, token list, index and result. -/
theorem claim_C5_witness :
    runwayMatch ["runway", "34"] 0 = some rwMatch34 ∧
      1 ≤ rwMatch34.step ∧ rwMatch34.step ≤ (["runway", "34"] : List String).length - 0 :=
  ⟨rfl, claim_C5 runwayMatch (by simp [allMatchers]) ["runway", "34"] 0 rwMatch34
    (by decide) rfl⟩

/-! ## The driver's conflict-resolution policy (claim C2) -/

theorem keyLtB_iff (x y : Nat × ℚ) :
    keyLtB x y = true ↔ (x.1 < y.1 ∨ (x.1 = y.1 ∧ x.2 < y.2)) := by
  simp [keyLtB]

theorem keyLtB_false_iff (x y : Nat × ℚ) :
    keyLtB x y = false ↔ (y.1 < x.1 ∨ (y.1 = x.1 ∧ y.2 ≤ x.2)) := by
  rw [← Bool.not_eq_true, keyLtB_iff]
  constructor
  · intro hn
    push_neg at hn
    rcases Nat.lt_or_ge y.1 x.1 with hlt | hge
    · exact Or.inl hlt
    · have hx : x.1 = y.1 := by omega
      exact Or.inr ⟨hx.symm, hn.2 hx⟩
  · intro hc hk
    rcases hk with hlt | ⟨he, h2⟩ <;> rcases hc with hlt' | ⟨he', h2'⟩
    · omega
    · omega
    · omega
    · exact absurd h2 (not_lt.mpr h2')

theorem keyLtB_trans {x y z : Nat × ℚ} (h1 : keyLtB x y = true)
    (h2 : keyLtB y z = true) : keyLtB x z = true := by
  rw [keyLtB_iff] at h1 h2 ⊢
  rcases h1 with ha | ⟨ha, ha2⟩ <;> rcases h2 with hb | ⟨hb, hb2⟩
  · exact Or.inl (Nat.lt_trans ha hb)
  · exact Or.inl (by omega)
  · exact Or.inl (by omega)
  · exact Or.inr ⟨ha.trans hb, ha2.trans hb2⟩

theorem keyLtB_false_lt_trans {x y z : Nat × ℚ} (h1 : keyLtB x y = false)
    (h2 : keyLtB x z = true) : keyLtB y z = true := by
  rw [keyLtB_false_iff] at h1
  rw [keyLtB_iff] at h2 ⊢
  rcases h1 with ha | ⟨ha, ha2⟩ <;> rcases h2 with hb | ⟨hb, hb2⟩
  · exact Or.inl (by omega)
  · exact Or.inl (by omega)
  · exact Or.inl (by omega)
  · exact Or.inr ⟨by omega, lt_of_le_of_lt ha2 hb2⟩

/-- Where the accumulator scan of `_best_match` ends up: either the initial
accumulator survives (nothing later beats it strictly), or the final best is
the first list element that strictly beats everything before it and is never
strictly beaten afterwards. -/
theorem pickBest_some_spec :
    ∀ (l : List MatchResult) (a b : MatchResult),
      pickBest (some a) l = some b →
      (b = a ∧ ∀ r ∈ l, keyLtB (mkey a) (mkey r) = false) ∨
      (∃ l₁ l₂, l = l₁ ++ b :: l₂ ∧ keyLtB (mkey a) (mkey b) = true ∧
        (∀ r ∈ l₁, keyLtB (mkey r) (mkey b) = true) ∧
        (∀ r ∈ l₂, keyLtB (mkey b) (mkey r) = false)) := by
  intro l
  induction l with
  | nil =>
    intro a b h
    exact Or.inl ⟨(Option.some.inj h).symm, by simp⟩
  | cons r rs ih =>
    intro a b h
    by_cases hlt : keyLtB (mkey a) (mkey r) = true
    · rw [show pickBest (some a) (r :: rs) = pickBest (some r) rs by
        simp [pickBest, hlt]] at h
      rcases ih r b h with ⟨rfl, hall⟩ | ⟨l₁, l₂, rfl, hab, hall₁, hall₂⟩
      · exact Or.inr ⟨[], rs, rfl, hlt, by simp, hall⟩
      · refine Or.inr ⟨r :: l₁, l₂, rfl, keyLtB_trans hlt hab, ?_, hall₂⟩
        intro s hs
        rcases List.mem_cons.mp hs with rfl | hs'
        · exact hab
        · exact hall₁ s hs'
    · have hlt' : keyLtB (mkey a) (mkey r) = false := by
        cases hb : keyLtB (mkey a) (mkey r)
        · rfl
        · exact absurd hb hlt
      rw [show pickBest (some a) (r :: rs) = pickBest (some a) rs by
        simp [pickBest, hlt']] at h
      rcases ih a b h with ⟨rfl, hall⟩ | ⟨l₁, l₂, rfl, hab, hall₁, hall₂⟩
      · refine Or.inl ⟨rfl, ?_⟩
        intro s hs
        rcases List.mem_cons.mp hs with rfl | hs'
        · exact hlt'
        · exact hall s hs'
      · refine Or.inr ⟨r :: l₁, l₂, rfl, hab, ?_, hall₂⟩
        intro s hs
        rcases List.mem_cons.mp hs with rfl | hs'
        · exact keyLtB_false_lt_trans hlt' hab
        · exact hall₁ s hs'

/-- `_best_match` is the `pickBest` scan over the successful results. -/
theorem bestMatchFrom_eq_pickBest (tokens : List String) (index : Nat) :
    ∀ (fs : List FSMFun) (acc : Option MatchResult),
      bestMatchFrom tokens index acc fs =
        pickBest acc (fs.filterMap (fun f => tryFsm f tokens index)) := by
  intro fs
  induction fs with
  | nil => intro acc; cases acc <;> rfl
  | cons f fs ih =>
    intro acc
    rw [List.filterMap_cons]
    cases htf : tryFsm f tokens index with
    | none => simp only [bestMatchFrom, htf]; exact ih acc
    | some r =>
      cases acc with
      | none => simp only [bestMatchFrom, htf, pickBest]; exact ih (some r)
      | some b => simp only [bestMatchFrom, htf, pickBest]; exact ih _

/-- Claim C2: the driver's selected match is a successful match that
maximizes the lexicographic pair (step, confidence) — every other match has
a strictly smaller step, or an equal step and no larger confidence — and on
exact ties the earliest matcher in list order is kept: every match listed
before the winner is strictly smaller in the lexicographic order. -/
theorem claim_C2 (fsms : List FSMFun) (tokens : List String) (index : Nat)
    (b : MatchResult) (h : bestMatch fsms tokens index = some b) :
    ∃ l₁ l₂, matchResults fsms tokens index = l₁ ++ b :: l₂ ∧
      (∀ r ∈ l₁, r.step < b.step ∨ (r.step = b.step ∧ r.confidence < b.confidence)) ∧
      (∀ r ∈ l₂, r.step < b.step ∨ (r.step = b.step ∧ r.confidence ≤ b.confidence)) := by
  unfold bestMatch at h
  rw [bestMatchFrom_eq_pickBest] at h
  rw [show matchResults fsms tokens index =
    fsms.filterMap (fun f => tryFsm f tokens index) from rfl]
  cases hres : fsms.filterMap (fun f => tryFsm f tokens index) with
  | nil => rw [hres] at h; exact absurd h (by simp [pickBest])
  | cons r rs =>
    rw [hres] at h
    rw [show pickBest none (r :: rs) = pickBest (some r) rs from rfl] at h
    rcases pickBest_some_spec rs r b h with ⟨rfl, hall⟩ | ⟨l₁, l₂, rfl, hab, hall₁, hall₂⟩
    · refine ⟨[], rs, rfl, by simp, ?_⟩
      intro s hs
      have := (keyLtB_false_iff (mkey b) (mkey s)).mp (hall s hs)
      simpa [mkey] using this
    · refine ⟨r :: l₁, l₂, rfl, ?_, ?_⟩
      · intro s hs
        rcases List.mem_cons.mp hs with rfl | hs'
        · have := (keyLtB_iff (mkey s) (mkey b)).mp hab
          simpa [mkey] using this
        · have := (keyLtB_iff (mkey s) (mkey b)).mp (hall₁ s hs')
          simpa [mkey] using this
      · intro s hs
        have := (keyLtB_false_iff (mkey b) (mkey s)).mp (hall₂ s hs)
        simpa [mkey] using this

/-- Witness for C2 at a concrete matcher list, token list and index. -/
theorem claim_C2_witness :
    ∃ l₁ l₂, matchResults defaultFSMs ["runway", "34"] 0 = l₁ ++ rwMatch34 :: l₂ ∧
      (∀ r ∈ l₁, r.step < rwMatch34.step ∨
        (r.step = rwMatch34.step ∧ r.confidence < rwMatch34.confidence)) ∧
      (∀ r ∈ l₂, r.step < rwMatch34.step ∨
        (r.step = rwMatch34.step ∧ r.confidence ≤ rwMatch34.confidence)) :=
  claim_C2 defaultFSMs ["runway", "34"] 0 rwMatch34 (by rfl)

/-! ## Totality and termination of the driver (claims C1 and C6) -/

/-- The scan loop never hits its error case: the subscript `tokens[i]` is
always guarded by `i < len(tokens)`, and matcher faults are already folded
into "no match". -/
theorem scanLoopE_isOk (fsms : List FSMFun) (tokens : List String)
    (mode : RenderMode) :
    ∀ fuel i, ∃ out, scanLoopE fsms tokens mode fuel i = Except.ok out := by
  intro fuel
  induction fuel with
  | zero => intro i; exact ⟨[], rfl⟩
  | succ n ih =>
    intro i
    by_cases hi : i < tokens.length
    · obtain ⟨tk, htk⟩ : ∃ tk, tokens.get? i = some tk := by
        cases hg : tokens.get? i with
        | none => rw [List.get?_eq_none] at hg; omega
        | some tk => exact ⟨tk, rfl⟩
      cases hb : bestMatch fsms tokens i with
      | none =>
        obtain ⟨out, hout⟩ := ih (i + 1)
        refine ⟨tk :: out, ?_⟩
        simp only [scanLoopE, if_pos hi, htk, hb, hout, Except.map]
      | some b =>
        obtain ⟨out, hout⟩ := ih (i + max 1 b.step)
        refine ⟨b.entity.render mode :: out, ?_⟩
        simp only [scanLoopE, if_pos hi, htk, hb, hout, Except.map]
    · exact ⟨[], by simp only [scanLoopE, if_neg hi]⟩

/-- Claim C1: for every input string and mode (and in fact for every matcher
list), the parse operation is total: it never raises, and `parse` returns
the joined output string. -/
theorem claim_C1 (fsms : List FSMFun) (text : String) (mode : RenderMode) :
    ∃ out, parseE fsms text mode = Except.ok out ∧ parse fsms text mode = out := by
  obtain ⟨pieces, hp⟩ := scanLoopE_isOk fsms (tokenize (normalize text)) mode
    (tokenize (normalize text)).length 0
  refine ⟨String.intercalate " " pieces, ?_, ?_⟩
  · simp only [parseE, hp, Except.map]
  · simp only [parse, parseE, hp, Except.map]

/-- Any two sufficient fuels give the same scan-loop result: the loop
reaches the end of the token stream within `tokens.length - i` iterations,
because every iteration strictly increases the cursor. -/
theorem scanLoopE_fuel_irrel (fsms : List FSMFun) (tokens : List String)
    (mode : RenderMode) :
    ∀ fuel₁ fuel₂ i, tokens.length - i ≤ fuel₁ → tokens.length - i ≤ fuel₂ →
      scanLoopE fsms tokens mode fuel₁ i = scanLoopE fsms tokens mode fuel₂ i := by
  intro fuel₁
  induction fuel₁ with
  | zero =>
    intro fuel₂ i h1 h2
    have hi : ¬ i < tokens.length := by omega
    cases fuel₂ with
    | zero => rfl
    | succ m => simp [scanLoopE, if_neg hi]
  | succ n ih =>
    intro fuel₂ i h1 h2
    cases fuel₂ with
    | zero =>
      have hi : ¬ i < tokens.length := by omega
      simp [scanLoopE, if_neg hi]
    | succ m =>
      by_cases hi : i < tokens.length
      · simp only [scanLoopE, if_pos hi]
        cases htk : tokens.get? i with
        | none => rfl
        | some tk =>
          cases hb : bestMatch fsms tokens i with
          | none =>
            simp only []
            rw [ih m (i + 1) (by omega) (by omega)]
          | some b =>
            simp only []
            rw [ih m (i + max 1 b.step) (by omega) (by omega)]
      · simp [scanLoopE, if_neg hi]

/-- Claim C6: the scan loop terminates for every token sequence.  The result
does not depend on the fuel once the fuel covers `tokens.length - i` (so the
loop ends within that many iterations); the cursor strictly increases at
every step, advancing by exactly 1 on "no match" and by `max 1 step` on a
match; and once the cursor reaches the token count, the loop stops and
emits nothing further. -/
theorem claim_C6 (fsms : List FSMFun) (tokens : List String) (mode : RenderMode)
    (i fuel₁ fuel₂ : Nat)
    (h1 : tokens.length - i ≤ fuel₁) (h2 : tokens.length - i ≤ fuel₂) :
    scanLoopE fsms tokens mode fuel₁ i = scanLoopE fsms tokens mode fuel₂ i ∧
    i < nextCursor fsms tokens i ∧
    (bestMatch fsms tokens i = none → nextCursor fsms tokens i = i + 1) ∧
    (∀ b, bestMatch fsms tokens i = some b →
      nextCursor fsms tokens i = i + max 1 b.step) ∧
    (tokens.length ≤ i → scanLoopE fsms tokens mode fuel₁ i = Except.ok []) := by
  refine ⟨scanLoopE_fuel_irrel fsms tokens mode fuel₁ fuel₂ i h1 h2, ?_, ?_, ?_, ?_⟩
  · unfold nextCursor
    cases bestMatch fsms tokens i with
    | none => simp only []; omega
    | some b =>
      simp only []
      have := Nat.le_max_left 1 b.step
      omega
  · intro hb; simp [nextCursor, hb]
  · intro b hb; simp [nextCursor, hb]
  · intro hge
    have hi : ¬ i < tokens.length := by omega
    cases fuel₁ with
    | zero => rfl
    | succ n => simp [scanLoopE, if_neg hi]

/-- Witness for C6 at a concrete matcher list, token list and fuels. -/
theorem claim_C6_witness :
    scanLoopE defaultFSMs ["qnh"] RenderMode.CODE 1 0 =
        scanLoopE defaultFSMs ["qnh"] RenderMode.CODE 5 0 ∧
      0 < nextCursor defaultFSMs ["qnh"] 0 ∧
      (bestMatch defaultFSMs ["qnh"] 0 = none →
        nextCursor defaultFSMs ["qnh"] 0 = 0 + 1) ∧
      (∀ b, bestMatch defaultFSMs ["qnh"] 0 = some b →
        nextCursor defaultFSMs ["qnh"] 0 = 0 + max 1 b.step) ∧
      ((["qnh"] : List String).length ≤ 0 →
        scanLoopE defaultFSMs ["qnh"] RenderMode.CODE 1 0 = Except.ok []) :=
  claim_C6 defaultFSMs ["qnh"] RenderMode.CODE 0 1 5 (by decide) (by decide)

/-! ## Matcher faults are recovered locally (claim C7) -/

theorem tryFsm_sanitize (f : FSMFun) (tokens : List String) (index : Nat) :
    tryFsm (sanitizeFSM f) tokens index = tryFsm f tokens index := by
  unfold tryFsm sanitizeFSM
  cases f tokens index <;> rfl

theorem bestMatch_sanitize (pre post : List FSMFun) (f : FSMFun)
    (tokens : List String) (index : Nat) :
    bestMatch (pre ++ sanitizeFSM f :: post) tokens index =
      bestMatch (pre ++ f :: post) tokens index := by
  unfold bestMatch
  rw [bestMatchFrom_eq_pickBest, bestMatchFrom_eq_pickBest,
    List.filterMap_append, List.filterMap_append,
    List.filterMap_cons, List.filterMap_cons, tryFsm_sanitize]

theorem scanLoopE_sanitize (pre post : List FSMFun) (f : FSMFun)
    (tokens : List String) (mode : RenderMode) :
    ∀ fuel i, scanLoopE (pre ++ sanitizeFSM f :: post) tokens mode fuel i =
      scanLoopE (pre ++ f :: post) tokens mode fuel i := by
  intro fuel
  induction fuel with
  | zero => intro i; rfl
  | succ n ih =>
    intro i
    simp only [scanLoopE, bestMatch_sanitize, ih]

/-- Claim C7: a matcher that raises is equivalent to one that returns "no
match" at the raising positions — replacing a faulty matcher anywhere in
the list by its sanitized version leaves the output of `parse` (and the
absence of an escaping exception) unchanged. -/
theorem claim_C7 (pre post : List FSMFun) (f : FSMFun) (text : String)
    (mode : RenderMode) :
    parse (pre ++ f :: post) text mode =
        parse (pre ++ sanitizeFSM f :: post) text mode ∧
      parseE (pre ++ f :: post) text mode =
        parseE (pre ++ sanitizeFSM f :: post) text mode := by
  have hE : parseE (pre ++ f :: post) text mode =
      parseE (pre ++ sanitizeFSM f :: post) text mode := by
    unfold parseE
    simp only []
    rw [scanLoopE_sanitize]
  exact ⟨by unfold parse; rw [hE], hE⟩

/-! ## Unprefixed runway forms (claim C8) -/

/-- Claim C8: a bare all-digit 2-character token never matches the runway
matcher, and without a `runway`/`rwy` prefix a match is only possible for a
tight `\d\d[LRC]` token, at confidence 0.75 and step 1. -/
theorem claim_C8 :
    (∀ (tokens : List String) (index : Nat),
        (tokens.getD index "").data.length = 2 →
        (tokens.getD index "").data.all isDigitA = true →
        runwayMatch tokens index = none) ∧
    (∀ (tokens : List String) (index : Nat) (r : MatchResult),
        rwKeywords.contains (pyLower (tokens.getD index "")) = false →
        runwayMatch tokens index = some r →
        isRwTight (pyUpper (tokens.getD index "")).data = true ∧
          r.step = 1 ∧ r.confidence = 0.75) := by
  constructor
  · intro tokens index hlen hdig
    obtain ⟨a, b, hab⟩ := List.length_eq_two.mp hlen
    unfold runwayMatch
    by_cases hidx : index < tokens.length
    · rw [if_pos hidx]
      have hlow : (pyLower (tokens.getD index "")).data.length = 2 := by
        show ((tokens.getD index "").data.map pyLowerChar).length = 2
        rw [List.length_map]; exact hlen
      have hkw : rwKeywords.contains (pyLower (tokens.getD index "")) = false := by
        simp only [rwKeywords, List.contains_cons, List.contains_nil,
          Bool.or_false, Bool.or_eq_false_iff, beq_eq_false_iff_ne, ne_eq]
        constructor
        · intro he; rw [he] at hlow; exact absurd hlow (by decide)
        · intro he; rw [he] at hlow; exact absurd hlow (by decide)
      rw [hkw]
      simp only [Bool.false_eq_true, if_false]
      have hupper : (pyUpper (tokens.getD index "")).data =
          [pyUpperChar a, pyUpperChar b] := by
        show (tokens.getD index "").data.map pyUpperChar = _
        rw [hab]; rfl
      rw [show isRwTight (pyUpper (tokens.getD index "")).data = false by
        rw [hupper]; rfl]
      simp
    · rw [if_neg hidx]
  · intro tokens index r hkw h
    unfold runwayMatch at h
    split at h
    next h0 =>
      rw [hkw] at h
      simp only [Bool.false_eq_true, if_false] at h
      split at h
      next h2 =>
        obtain rfl := Option.some.inj h
        exact ⟨h2, rfl, rfl⟩
      next h2 => exact absurd h (by simp)
    next h0 => exact absurd h (by simp)

/-- Witness for C8 at the claim's example token. -/
theorem claim_C8_witness : runwayMatch ["34"] 0 = none :=
  claim_C8.1 ["34"] 0 (by decide) (by decide)

/-! ## The QNH digit-count policy (claim C4) -/

/-- Counterexample to claim C4 as stated, refuting both of its negative
parts: a QNH phrase followed by FIVE recognized digit tokens does match —
the matcher consumes the first four and leaves the fifth — and a qnh phrase
followed by only 3 recognized digit tokens does NOT fall through to
raw-token passthrough: the callsign matcher claims `qnh` (a 3-letter token)
plus the digits, so the parse emits `QNH101` instead of the raw tokens. -/
theorem claim_C4_counterexample :
    qnhMatch ["qnh", "1", "2", "3", "4", "5"] 0 =
      some { entity :=
               { type := EntityType.QNH, raw := "qnh 1 2 3 4",
                 code := "QNH 1234", spoken := "qnh one two three four",
                 confidence := 0.90 },
             step := 5, confidence := 0.90 } ∧
    parse defaultFSMs "qnh one zero one" RenderMode.CODE = "QNH101" := by
  exact ⟨rfl, rfl⟩

/-- Claim C4 as amended: after the mandatory `qnh` prefix, a match is
either an exactly-4-digit token (step 2), or exactly 4 collected
spoken/literal digit tokens (step 5) where the cap-4 collection loop
filled up — consuming only the first 4 digits even if more follow; a
qnh phrase whose digit collection stops at exactly 3 recognized digit
tokens (with no 4-digit literal) never matches the QNH matcher — but in a
full parse those tokens are not emitted raw: the callsign matcher picks up
`qnh` as a 3-letter code plus the digits, rendering `QNH101`. -/
theorem claim_C4_amended :
    (∀ (tokens : List String) (index : Nat) (r : MatchResult),
        qnhMatch tokens index = some r →
        (r.step = 2 ∧ isQnh4 (tokens.getD (index + 1) "").data = true) ∨
        (r.step = 5 ∧ (collect token_to_digit tokens 4 (index + 1)).1.length = 4)) ∧
    (∀ (tokens : List String) (index : Nat),
        isQnh4 (tokens.getD (index + 1) "").data = false →
        (collect token_to_digit tokens 4 (index + 1)).1.length = 3 →
        qnhMatch tokens index = none) ∧
    parse defaultFSMs "qnh one zero one" RenderMode.CODE = "QNH101" := by
  refine ⟨?_, ?_, rfl⟩
  · intro tokens index r h
    unfold qnhMatch at h
    split at h
    next h1 =>
      split at h
      next h2 =>
        obtain rfl := Option.some.inj h
        exact Or.inl ⟨rfl, h2.2⟩
      next h2 =>
        try simp only [] at h
        split at h
        next h3 =>
          obtain rfl := Option.some.inj h
          refine Or.inr ⟨?_, h3⟩
          have heq := collect_snd_eq token_to_digit tokens 4 (index + 1)
          have hge := collect_snd_ge token_to_digit tokens 4 (index + 1)
          simp only []
          omega
        next h3 => exact absurd h (by simp)
    next h1 => exact absurd h (by simp)
  · intro tokens index hq4 hc3
    unfold qnhMatch
    split
    next h1 =>
      rw [if_neg (fun hcon => by rw [hcon.2] at hq4; exact Bool.noConfusion hq4)]
      try simp only []
      rw [if_neg (by omega)]
    next h1 => rfl

/-- Witness for C4 (amended) at a 3-digit phrase. -/
theorem claim_C4_witness : qnhMatch ["qnh", "one", "zero", "one"] 0 = none :=
  claim_C4_amended.2.1 ["qnh", "one", "zero", "one"] 0 (by decide) (by rfl)

/-! ## Flight-level digit requirements (claim C9) -/

/-- Counterexample to claim C9 as stated: the separated `fl` + digit-token
form accepts a single-digit level. -/
theorem claim_C9_counterexample :
    flightLevelMatch ["fl", "5"] 0 =
      some { entity :=
               { type := EntityType.FLIGHT_LEVEL, raw := "fl 5", code := "FL5",
                 spoken := "flight level five", confidence := 0.9 },
             step := 2, confidence := 0.9 } := by
  rfl

theorem parseFLCompact_spec (l : List Char) (ds : String)
    (h : parseFLCompact l = some ds) :
    2 ≤ ds.data.length ∧ ds.data.length ≤ 3 ∧ ds.data.all isDigitA = true := by
  unfold parseFLCompact at h
  split at h
  next f l2 rest =>
    split at h
    next hfl =>
      try simp only [] at h
      split at h
      next hds =>
        obtain rfl := Option.some.inj h
        exact ⟨hds.1, hds.2.1, hds.2.2⟩
      next hds => exact absurd h (by simp)
    next hfl => exact absurd h (by simp)
  next => exact absurd h (by simp)

theorem flCompact_of_fl_none (t : String) (hfl : pyLower t = "fl") :
    parseFLCompact (t.data.filter (fun c => c ≠ ' ')) = none := by
  have hdat : t.data.map pyLowerChar = ['f', 'l'] := congrArg String.data hfl
  have hlen : t.data.length = 2 := by
    have h2 := congrArg List.length hdat
    simpa using h2
  obtain ⟨a, b, hab⟩ := List.length_eq_two.mp hlen
  rw [hab] at hdat
  simp only [List.map_cons, List.map_nil, List.cons.injEq, and_true] at hdat
  have ha : a ≠ ' ' := by
    intro rfla
    rw [rfla] at hdat
    exact absurd hdat.1 (by decide)
  have hb : b ≠ ' ' := by
    intro rflb
    rw [rflb] at hdat
    exact absurd hdat.2 (by decide)
  rw [hab]
  rw [show List.filter (fun c => decide (c ≠ ' ')) [a, b] = [a, b] by
    simp [ha, hb]]
  simp [parseFLCompact, hdat.1, hdat.2]

/-- Claim C9 as amended: the compact `FL###` form requires a 2–3 digit
level and the spoken `flight level` form requires at least 2 digit tokens
(hence step at least 4), but the separated `fl` + digit-token form accepts
ANY all-digit token — including a single-digit level — at confidence 0.9
and step 2. -/
theorem claim_C9_amended :
    (∀ (tokens : List String) (index : Nat) (r : MatchResult),
        flightLevelMatch tokens index = some r → r.step = 1 →
        ∃ ds : String, 2 ≤ ds.data.length ∧ ds.data.length ≤ 3 ∧
          ds.data.all isDigitA = true ∧ r.entity.code = "FL" ++ ds) ∧
    (∀ (tokens : List String) (index : Nat) (r : MatchResult),
        tokens.getD index "" = "flight" →
        flightLevelMatch tokens index = some r → 4 ≤ r.step) ∧
    (∀ (tokens : List String) (index : Nat),
        pyLower (tokens.getD index "") = "fl" →
        index + 1 < tokens.length →
        strAllDigits (tokens.getD (index + 1) "") = true →
        ∃ r, flightLevelMatch tokens index = some r ∧ r.step = 2 ∧
          r.confidence = 0.9 ∧
          r.entity.code = "FL" ++ tokens.getD (index + 1) "") := by
  refine ⟨?_, ?_, ?_⟩
  · intro tokens index r h hstep
    unfold flightLevelMatch at h
    split at h
    next h0 =>
      try simp only [] at h
      split at h
      next fl hfl =>
        obtain rfl := Option.some.inj h
        exact ⟨fl, (parseFLCompact_spec _ fl hfl).1, (parseFLCompact_spec _ fl hfl).2.1,
          (parseFLCompact_spec _ fl hfl).2.2, rfl⟩
      next hfl =>
        split at h
        next h1 =>
          obtain rfl := Option.some.inj h
          exact absurd hstep (by simp)
        next h1 =>
          split at h
          next h2 =>
            try simp only [] at h
            split at h
            next h3 =>
              obtain rfl := Option.some.inj h
              have heq := collect_snd_eq flNumTok tokens (tokens.length - (index + 2))
                (index + 2)
              simp only [] at hstep
              omega
            next h3 => exact absurd h (by simp)
          next h2 => exact absurd h (by simp)
    next h0 => exact absurd h (by simp)
  · intro tokens index r htok h
    unfold flightLevelMatch at h
    rw [htok] at h
    split at h
    next h0 =>
      try simp only [] at h
      rw [show parseFLCompact (("flight" : String).data.filter (fun c => c ≠ ' ')) =
        none from rfl] at h
      try simp only [] at h
      rw [if_neg (fun hcon => absurd hcon.1 (by decide))] at h
      split at h
      next h2 =>
        try simp only [] at h
        split at h
        next h3 =>
          obtain rfl := Option.some.inj h
          have heq := collect_snd_eq flNumTok tokens (tokens.length - (index + 2))
            (index + 2)
          simp only []
          omega
        next h3 => exact absurd h (by simp)
      next h2 => exact absurd h (by simp)
    next h0 => exact absurd h (by simp)
  · intro tokens index hfl hlt hdig
    have hmatch : flightLevelMatch tokens index =
        some { entity :=
                 { type := EntityType.FLIGHT_LEVEL,
                   raw := joinSlice tokens index (index + 2),
                   code := "FL" ++ tokens.getD (index + 1) "",
                   spoken := "flight level " ++
                     digits_to_spoken (tokens.getD (index + 1) ""),
                   confidence := 0.9 },
               step := 2, confidence := 0.9 } := by
      unfold flightLevelMatch
      rw [if_pos (by omega)]
      try simp only []
      rw [flCompact_of_fl_none _ hfl]
      try simp only []
      rw [if_pos ⟨hfl, hlt, hdig⟩]
    exact ⟨_, hmatch, rfl, rfl, rfl⟩

/-- Witness for C9 (amended), at the counterexample input. -/
theorem claim_C9_witness :
    ∃ r, flightLevelMatch ["fl", "5"] 0 = some r ∧ r.step = 2 ∧
      r.confidence = 0.9 ∧
      r.entity.code = "FL" ++ (["fl", "5"] : List String).getD 1 "" :=
  claim_C9_amended.2.2 ["fl", "5"] 0 (by rfl) (by decide) (by rfl)

/-! ## The taxi/runway scenario (claim C3) -/

/-- Claim C3 evaluated on the code: the tokenizer splits `34L` into `34`
and `l` (its regex has no letter+digit alternative), and `taxi`/`via` are
not taxiway prefix words, so neither `TWY M6` nor `RWY 34L` (nor their
spoken forms) appears in the output; the actual outputs are shown. -/
theorem claim_C3_code_behavior :
    parse defaultFSMs "taxi via mike six to runway 34L" RenderMode.CODE =
        "taxi via mike six to RWY 34 l" ∧
      parse defaultFSMs "taxi via mike six to runway 34L" RenderMode.SPOKEN =
        "taxi via mike six to runway three four l" ∧
      strContains (parse defaultFSMs "taxi via mike six to runway 34L"
        RenderMode.CODE) "TWY M6" = false ∧
      strContains (parse defaultFSMs "taxi via mike six to runway 34L"
        RenderMode.CODE) "RWY 34L" = false ∧
      strContains (parse defaultFSMs "taxi via mike six to runway 34L"
        RenderMode.SPOKEN) "taxiway mike six" = false ∧
      strContains (parse defaultFSMs "taxi via mike six to runway 34L"
        RenderMode.SPOKEN) "runway three four left" = false := by
  exact ⟨rfl, rfl, rfl, rfl, rfl, rfl⟩

/-! ## Tokenizer shape invariant (claim C10) -/

theorem toNat_ofNat_small (n : Nat) (h : n < 55296) : (Char.ofNat n).toNat = n := by
  unfold Char.ofNat
  rw [dif_pos (Or.inl h : n.isValidChar)]
  rfl

theorem digit_not_alpha (c : Char) (h : isDigitA c = true) : isAlphaA c = false := by
  simp only [isDigitA, Bool.and_eq_true, decide_eq_true_eq] at h
  simp only [isAlphaA, isUpperA, isLowerA, Bool.or_eq_false_iff,
    Bool.and_eq_false_iff, decide_eq_false_iff_not, not_le]
  omega

theorem pyLowerChar_not_digit (c : Char) (hc : isAlphaA c = true) :
    isDigitA (pyLowerChar c) = false := by
  simp only [isAlphaA, isUpperA, isLowerA, Bool.or_eq_true, Bool.and_eq_true,
    decide_eq_true_eq] at hc
  unfold pyLowerChar
  by_cases hu : isUpperA c = true
  · rw [if_pos hu]
    simp only [isUpperA, Bool.and_eq_true, decide_eq_true_eq] at hu
    have hv : (Char.ofNat (c.toNat + 32)).toNat = c.toNat + 32 :=
      toNat_ofNat_small _ (by omega)
    simp only [isDigitA, hv, Bool.and_eq_false_iff, decide_eq_false_iff_not, not_le]
    omega
  · rw [if_neg hu]
    simp only [isUpperA, Bool.and_eq_true, decide_eq_true_eq, not_and, not_le] at hu
    simp only [isDigitA, Bool.and_eq_false_iff, decide_eq_false_iff_not, not_le]
    omega

theorem mem_takeWhile_sat (p : Char → Bool) :
    ∀ (l : List Char) (c : Char), c ∈ l.takeWhile p → p c = true := by
  intro l
  induction l with
  | nil => intro c hc; simp [List.takeWhile] at hc
  | cons a as ih =>
    intro c hc
    by_cases hp : p a = true
    · rw [List.takeWhile_cons_of_pos hp] at hc
      rcases List.mem_cons.mp hc with rfl | hc2
      · exact hp
      · exact ih c hc2
    · rw [List.takeWhile_cons_of_neg hp] at hc
      simp at hc

theorem takeWhile_all_eq (p : Char → Bool) :
    ∀ l : List Char, l.all p = true → l.takeWhile p = l ∧ l.dropWhile p = [] := by
  intro l
  induction l with
  | nil => intro _; exact ⟨rfl, rfl⟩
  | cons a as ih =>
    intro hall
    obtain ⟨hpa, has⟩ : p a = true ∧ as.all p = true := by simpa using hall
    exact ⟨by simp [List.takeWhile_cons, hpa, (ih has).1],
      by simp [List.dropWhile_cons, hpa, (ih has).2]⟩

theorem takeWhile_append_stop (p : Char → Bool) :
    ∀ (l : List Char) (x : Char) (r : List Char), l.all p = true → p x = false →
      (l ++ x :: r).takeWhile p = l ∧ (l ++ x :: r).dropWhile p = x :: r := by
  intro l
  induction l with
  | nil =>
    intro x r _ hx
    exact ⟨by simp [List.takeWhile_cons, hx], by simp [List.dropWhile_cons, hx]⟩
  | cons a as ih =>
    intro x r hall hx
    obtain ⟨hpa, has⟩ : p a = true ∧ as.all p = true := by simpa using hall
    exact ⟨by simp [List.takeWhile_cons, hpa, (ih x r has hx).1],
      by simp [List.dropWhile_cons, hpa, (ih x r has hx).2]⟩

theorem isNumTok_plain (ds : List Char) (hne : ds ≠ [])
    (hall : ds.all isDigitA = true) : isNumTok ds = true := by
  unfold isNumTok
  rw [(takeWhile_all_eq isDigitA ds hall).1, (takeWhile_all_eq isDigitA ds hall).2]
  simp [hne]

theorem isNumTok_frac (ds fs : List Char) (hds : ds ≠ [])
    (hallds : ds.all isDigitA = true) (hfs : fs ≠ [])
    (hallfs : fs.all isDigitA = true) : isNumTok (ds ++ '.' :: fs) = true := by
  unfold isNumTok
  rw [(takeWhile_append_stop isDigitA ds '.' fs hallds (by decide)).1,
    (takeWhile_append_stop isDigitA ds '.' fs hallds (by decide)).2]
  simp [hds, hfs, hallfs]

/-- Every raw token of the scan is a letter run, a digit run with optional
`.`-fraction, or a symbol run. -/
theorem scanTokens_shapes :
    ∀ (fuel : Nat) (l : List Char) (tk : List Char), tk ∈ scanTokens fuel l →
      (tk ≠ [] ∧ tk.all isAlphaA = true) ∨
      (∃ ds rest2, tk = ds ++ rest2 ∧ ds ≠ [] ∧ ds.all isDigitA = true ∧
        (rest2 = [] ∨ ∃ fs, rest2 = '.' :: fs ∧ fs ≠ [] ∧ fs.all isDigitA = true)) ∨
      (tk ≠ [] ∧ tk.all isSymRunChar = true) := by
  intro fuel
  induction fuel with
  | zero => intro l tk h; simp [scanTokens] at h
  | succ n ih =>
    intro l tk h
    cases l with
    | nil => simp [scanTokens] at h
    | cons c cs =>
      unfold scanTokens at h
      by_cases hA : isAlphaA c = true
      · rw [if_pos hA] at h
        rcases List.mem_cons.mp h with rfl | h2
        · refine Or.inl ⟨?_, ?_⟩
          · rw [List.takeWhile_cons_of_pos hA]; simp
          · rw [List.all_eq_true]
            intro x hx
            exact mem_takeWhile_sat isAlphaA (c :: cs) x hx
        · exact ih _ tk h2
      · rw [if_neg hA] at h
        by_cases hD : isDigitA c = true
        · rw [if_pos hD] at h
          try simp only [] at h
          have hdsne : (c :: cs).takeWhile isDigitA ≠ [] := by
            rw [List.takeWhile_cons_of_pos hD]; simp
          have hdsall : ((c :: cs).takeWhile isDigitA).all isDigitA = true := by
            rw [List.all_eq_true]
            intro x hx
            exact mem_takeWhile_sat isDigitA (c :: cs) x hx
          cases hrest : (c :: cs).dropWhile isDigitA with
          | nil =>
            rw [hrest] at h
            rcases List.mem_cons.mp h with rfl | h2
            · exact Or.inr (Or.inl ⟨_, [], by simp, hdsne, hdsall, Or.inl rfl⟩)
            · exact ih _ tk h2
          | cons d rest2 =>
            rw [hrest] at h
            by_cases hdot : d = '.'
            · subst hdot
              split at h
              next r2 heq =>
                injection heq with hh1 hh2
                subst hh2
                by_cases hfse : (rest2.takeWhile isDigitA).isEmpty = true
                · rw [if_pos hfse] at h
                  rcases List.mem_cons.mp h with rfl | h2
                  · exact Or.inr (Or.inl ⟨_, [], by simp, hdsne, hdsall, Or.inl rfl⟩)
                  · exact ih _ tk h2
                · rw [if_neg hfse] at h
                  rcases List.mem_cons.mp h with rfl | h2
                  · refine Or.inr (Or.inl ⟨_, '.' :: rest2.takeWhile isDigitA, rfl,
                      hdsne, hdsall, Or.inr ⟨_, rfl, ?_, ?_⟩⟩)
                    · intro hemp; rw [hemp] at hfse; exact hfse rfl
                    · rw [List.all_eq_true]
                      intro x hx
                      exact mem_takeWhile_sat isDigitA rest2 x hx
                  · exact ih _ tk h2
              next hnm =>
                exact (hnm rest2 rfl).elim
            · split at h
              next r2 heq =>
                injection heq with hh1 hh2
                exact absurd hh1 hdot
              next hnm =>
                rcases List.mem_cons.mp h with rfl | h2
                · exact Or.inr (Or.inl ⟨_, [], by simp, hdsne, hdsall, Or.inl rfl⟩)
                · exact ih _ tk h2
        · rw [if_neg hD] at h
          by_cases hS : pySpaceB c = true
          · rw [if_pos hS] at h
            exact ih _ tk h
          · rw [if_neg hS] at h
            rcases List.mem_cons.mp h with rfl | h2
            · refine Or.inr (Or.inr ⟨?_, ?_⟩)
              · rw [List.takeWhile_cons_of_pos (by simp [isSymRunChar, hA, hD, hS])]
                simp
              · rw [List.all_eq_true]
                intro x hx
                exact mem_takeWhile_sat isSymRunChar (c :: cs) x hx
            · exact ih _ tk h2

/-- Claim C10: every token produced by the tokenizer is a lowercased pure
letter run, a digit run with an optional decimal fraction (the `_NUM_RE`
shape), or a run with no letters and no digits; consequently no token ever
mixes letters and digits, so mixed single-token forms like `CSN6889`,
`FL330` or `34L` never reach a matcher as one token. -/
theorem claim_C10 (text : String) (t : String) (ht : t ∈ tokenize text) :
    ((∃ s : List Char, s ≠ [] ∧ s.all isAlphaA = true ∧ t.data = s.map pyLowerChar) ∨
      isNumTok t.data = true ∨
      t.data.all (fun c => !isAlphaA c && !isDigitA c) = true) ∧
    ¬(t.data.any isAlphaA = true ∧ t.data.any isDigitA = true) := by
  unfold tokenize at ht
  simp only [List.mem_map, List.mem_filter] at ht
  obtain ⟨tk, ⟨⟨raw, hraw, hfr⟩, hkeep⟩, heq⟩ := ht
  have hdata : t.data = tk := (congrArg String.data heq).symm
  rcases scanTokens_shapes _ _ raw hraw with ⟨hne, hall⟩ |
    ⟨ds, rest2, hsplit, hdsne, hdsall, hrest⟩ | ⟨hne, hall⟩
  · -- pure letter run, emitted lowercased
    have hAT : isAlphaTok raw = true := by
      simp [isAlphaTok, hne, hall]
    rw [if_pos hAT] at hfr
    rw [← hfr] at hdata
    constructor
    · exact Or.inl ⟨raw, hne, hall, hdata⟩
    · rintro ⟨hany1, hany2⟩
      rw [hdata] at hany2
      obtain ⟨x, hx, hdx⟩ := List.any_eq_true.mp hany2
      obtain ⟨y, hy, rfl⟩ := List.mem_map.mp hx
      have hyA : isAlphaA y = true := by
        rw [List.all_eq_true] at hall
        exact hall y hy
      rw [pyLowerChar_not_digit y hyA] at hdx
      exact Bool.noConfusion hdx
  · -- digit run with optional fraction
    obtain ⟨d, ds', rfl⟩ : ∃ d ds', ds = d :: ds' := by
      cases ds with
      | nil => exact absurd rfl hdsne
      | cons d ds' => exact ⟨d, ds', rfl⟩
    have hd : isDigitA d = true := by
      rw [List.all_eq_true] at hdsall
      exact hdsall d (by simp)
    have hallA : raw.all isAlphaA = false := by
      apply Bool.eq_false_iff.mpr
      intro hcon
      rw [List.all_eq_true] at hcon
      have hda := hcon d (by rw [hsplit]; exact List.mem_append.mpr (Or.inl (by simp)))
      rw [digit_not_alpha d hd] at hda
      exact Bool.noConfusion hda
    have hAT : isAlphaTok raw = false := by
      simp [isAlphaTok, hallA]
    rw [if_neg (by simp [hAT])] at hfr
    rw [← hfr] at hdata
    have hchars : ∀ c ∈ t.data, isDigitA c = true ∨ c = '.' := by
      rw [hdata, hsplit]
      intro x hx
      rcases List.mem_append.mp hx with h1 | h2
      · rw [List.all_eq_true] at hdsall
        exact Or.inl (hdsall x h1)
      · rcases hrest with rfl | ⟨fs, rfl, hfsne, hfsall⟩
        · simp at h2
        · rcases List.mem_cons.mp h2 with rfl | h3
          · exact Or.inr rfl
          · rw [List.all_eq_true] at hfsall
            exact Or.inl (hfsall x h3)
    constructor
    · refine Or.inr (Or.inl ?_)
      rw [hdata, hsplit]
      rcases hrest with rfl | ⟨fs, rfl, hfsne, hfsall⟩
      · simpa using isNumTok_plain (d :: ds') hdsne hdsall
      · exact isNumTok_frac (d :: ds') fs hdsne hdsall hfsne hfsall
    · rintro ⟨hany1, hany2⟩
      obtain ⟨x, hx, hax⟩ := List.any_eq_true.mp hany1
      rcases hchars x hx with hxd | rfl
      · rw [digit_not_alpha x hxd] at hax
        exact Bool.noConfusion hax
      · exact absurd hax (by decide)
  · -- symbol run
    obtain ⟨d, rest, rfl⟩ : ∃ d rest, raw = d :: rest := by
      cases raw with
      | nil => exact absurd rfl hne
      | cons d rest => exact ⟨d, rest, rfl⟩
    have hsym : ∀ x ∈ d :: rest, pySpaceB x = false ∧ isAlphaA x = false ∧
        isDigitA x = false := by
      intro x hx
      rw [List.all_eq_true] at hall
      have hxs := hall x hx
      simp only [isSymRunChar, Bool.and_eq_true, Bool.not_eq_true'] at hxs
      exact ⟨hxs.1.1, hxs.1.2, hxs.2⟩
    have hallA : (d :: rest).all isAlphaA = false := by
      apply Bool.eq_false_iff.mpr
      intro hcon
      rw [List.all_eq_true] at hcon
      have hda := hcon d (by simp)
      rw [(hsym d (by simp)).2.1] at hda
      exact Bool.noConfusion hda
    have hAT : isAlphaTok (d :: rest) = false := by
      simp [isAlphaTok, hallA]
    rw [if_neg (by simp [hAT])] at hfr
    rw [← hfr] at hdata
    have hchars : t.data.all (fun c => !isAlphaA c && !isDigitA c) = true := by
      rw [hdata, List.all_eq_true]
      intro x hx
      obtain ⟨_, hxa, hxd⟩ := hsym x hx
      simp [hxa, hxd]
    constructor
    · exact Or.inr (Or.inr hchars)
    · rintro ⟨hany1, hany2⟩
      obtain ⟨x, hx, hax⟩ := List.any_eq_true.mp hany1
      rw [List.all_eq_true] at hchars
      have hxc := hchars x hx
      simp only [Bool.and_eq_true, Bool.not_eq_true'] at hxc
      rw [hxc.1] at hax
      exact Bool.noConfusion hax

/-- Witness for C10 at a concrete text and token. -/
theorem claim_C10_witness :
    ((∃ s : List Char, s ≠ [] ∧ s.all isAlphaA = true ∧
        ("csn" : String).data = s.map pyLowerChar) ∨
      isNumTok ("csn" : String).data = true ∨
      ("csn" : String).data.all (fun c => !isAlphaA c && !isDigitA c) = true) ∧
    ¬(("csn" : String).data.any isAlphaA = true ∧
      ("csn" : String).data.any isDigitA = true) :=
  claim_C10 "CSN6889" "csn" (by decide)

end ATN
